import Mathlib

/-!
# Verification of the CoAct-1 orchestration core

A shallow embedding, in Lean 4, of the orchestration-relevant code of the
CoAct-1 multi-agent repository: the visual-grounding (OCR) index and its
injection into conversation histories (`agent/callbacks/ocr_processor.py`),
the restricted GUI capability proxy (`GUIOperator.py`), the WebSocket event
broadcaster and the bounded delegation control loop (`coact_1.py`).

Conventions of the embedding:
* Python dictionaries distinguished by their `"role"` / `"type"` fields are
  modelled by inductive types carrying the fields the code reads.
* Machine integers are `Int`; Python floor division `//` is `Int.fdiv`;
  Python `int()` (truncation toward zero) is `pyInt` on `Rat`.
* OCR detection scores and polygon coordinates are `Rat` (every IEEE float
  is a rational, and the code applies only exact comparisons, `min`, `max`
  and truncation to them).
* Awaited external effects (screenshot capture, the planner, the OCR
  engine, a delegate's run, an observer's `send`) are oracles passed in as
  functions; a `none` result models the Python call raising.
* Base64 decoding of a well-formed `data:image/png;base64,` URL is
  modelled as total; the payload string stands for the decoded image.
-/

namespace CoAct

/-! ## Content model (`messages` dictionaries) -/

/-- One entry of a `"content"` list: the `"type"`-tagged dictionaries the
code inspects (`text`, `image_url`, `tool_use`, `function_call`). -/
inductive Item where
  | text (s : String)
  | image (url : String)
  | toolUse
  | functionCall
deriving DecidableEq, Repr

/-- A `"content"` field: either a plain string or a list of items. -/
inductive Content where
  | str (s : String)
  | items (l : List Item)
deriving DecidableEq, Repr

/-- A message of a conversation history, as distinguished by the code:
`"role": "user"`, `"role": "assistant"`, a `"type": "computer_call_output"`
dictionary (whose `output` dict has a `type` and an `image_url`), a
`"type": "function_call"` item, or a `"type": "function_call_output"`
result appended by the control loop. -/
inductive Message where
  | user (content : Content)
  | assistant (content : Content)
  | computerCallOutput (outputType : String) (imageUrl : String)
  | functionCall (name subtask : String)
  | functionCallOutput (result : Content) (imageUrl : Option String)
  | otherMsg
deriving DecidableEq, Repr

/-- `Item.text`? -/
def itemIsText : Item → Bool
  | .text _ => true
  | _ => false

/-- `Item.image`? (`content_item.get("type") == "image_url"`). -/
def itemIsImage : Item → Bool
  | .image _ => true
  | _ => false

/-- Python substring helper: does `l` start with `pat`? -/
def startsWithL : List Char → List Char → Bool
  | [], _ => true
  | _ :: _, [] => false
  | a :: as, b :: bs => a = b && startsWithL as bs

/-- Python substring helper on char lists. -/
def hasSub (pat : List Char) : List Char → Bool
  | [] => pat.isEmpty
  | c :: rest => startsWithL pat (c :: rest) || hasSub pat rest

/-- Python `pat in s` on strings. -/
def strContains (s pat : String) : Bool :=
  hasSub pat.toList s.toList

/-! ## Visual grounding: OCR result processing (`ocr_processor.py`) -/

/-- Python `int()` applied to a rational: truncation toward zero
(`Int.tdiv` of the reduced numerator by the denominator; the lemma
`pyInt_eq` below identifies it with floor for nonnegative and ceiling for
negative arguments). -/
def pyInt (q : ℚ) : ℤ :=
  q.num.tdiv q.den

/-- Python `min` over a nonempty list (`0` is an arbitrary value for the
empty list, on which the source would raise). -/
def minList : List ℚ → ℚ
  | [] => 0
  | x :: xs => xs.foldl min x

/-- Python `max` over a nonempty list. -/
def maxList : List ℚ → ℚ
  | [] => 0
  | x :: xs => xs.foldl max x

/-- One RapidOCR detection: recognized text, confidence score, and the
corner polygon of the detected region. -/
structure Detection where
  txt : String
  score : ℚ
  box : List (ℚ × ℚ)
deriving DecidableEq, Repr

/-- The axis-aligned bounding box of `check_ocr_result`: `int(min)` /
`int(max)` of the polygon's x and y coordinates, as `(x1, y1, x2, y2)`. -/
def computeBBox (box : List (ℚ × ℚ)) : ℤ × ℤ × ℤ × ℤ :=
  let xs := box.map Prod.fst
  let ys := box.map Prod.snd
  (pyInt (minList xs), pyInt (minList ys), pyInt (maxList xs), pyInt (maxList ys))

/-- The fixed OCR confidence threshold (`text_threshold=0.9`; the lemma
`textThreshold_eq` identifies the value with `9 / 10`). -/
def textThreshold : ℚ := mkRat 9 10

/-- The `for txt, score, box in zip(...)` loop body of `check_ocr_result`:
keep a detection only when `score > text_threshold` (strict). -/
def checkOcrLoop (threshold : ℚ) : List Detection → List String × List (ℤ × ℤ × ℤ × ℤ)
  | [] => ([], [])
  | d :: rest =>
    let acc := checkOcrLoop threshold rest
    if threshold < d.score then (d.txt :: acc.1, computeBBox d.box :: acc.2) else acc

/-- `check_ocr_result(result, text_threshold)`: `None` (or a result with no
`txts`) yields `([], [])`; otherwise the kept texts and their boxes. -/
def check_ocr_result (result : Option (List Detection)) (threshold : ℚ) :
    List String × List (ℤ × ℤ × ℤ × ℤ) :=
  match result with
  | none => ([], [])
  | some dets => checkOcrLoop threshold dets

/-- The OCR result registry `self.ocr_results`: the dictionary
`{i: (content, bbox) for i in range(n)}` is the list indexed by its dense
integer keys `0..n-1`. -/
abbrev OcrResults := List (String × (ℤ × ℤ × ℤ × ℤ))

/-- `_perform_ocr`: run the engine oracle on the image (a `none` engine
answer models both a `None` OCR result and a caught engine exception, which
the source maps to the empty dictionary alike), filter by the fixed
threshold, and number the survivors densely from 0 in detection order. -/
def perform_ocr (engine : String → Option (List Detection)) (img : String) : OcrResults :=
  let tb := check_ocr_result (engine img) textThreshold
  tb.1.zip tb.2

/-- `get_ocr_bbox(ocr_id)`: the bounding box, or `None` when the ID is not
a key of the current result dictionary. -/
def get_ocr_bbox (results : OcrResults) (ocrId : ℕ) : Option (ℤ × ℤ × ℤ × ℤ) :=
  (results.get? ocrId).map Prod.snd

/-- `get_ocr_content(ocr_id)`. -/
def get_ocr_content (results : OcrResults) (ocrId : ℕ) : Option String :=
  (results.get? ocrId).map Prod.fst

/-- The line block built by `_format_ocr_text` (one `\nID i: "content"`
per entry, ids counting up from `i`). -/
def formatOcrLines : ℕ → OcrResults → String
  | _, [] => ""
  | i, (c, _) :: rest => "\nID " ++ toString i ++ ": \"" ++ c ++ "\"" ++ formatOcrLines (i + 1) rest

/-- `_format_ocr_text()`: the header plus one line per entry, or the
fixed none-found marker for an empty result set. -/
def format_ocr_text (results : OcrResults) : String :=
  if results.isEmpty then "OCR-DETECTED TEXT ELEMENTS: None found"
  else "OCR-DETECTED TEXT ELEMENTS:" ++ formatOcrLines 0 results

/-- The data-URL marker checked by `startswith("data:image/png;base64,")`. -/
def pngDataUrl : String := "data:image/png;base64,"

/-- `image_url.split(",", 1)[1]` guarded by the `startswith` check (the
marker's trailing comma is the first comma of a matching URL, so the split
remainder is the URL with the marker removed). -/
def urlPayload (url : String) : Option String :=
  if startsWithL pngDataUrl.toList url.toList then
    some (String.mk (url.toList.drop pngDataUrl.length))
  else none

/-- The inner `for content_item in reversed(message["content"])` scan of
`_extract_latest_screenshot` (argument already reversed): the first
`image_url` item with a well-formed data URL wins, others are skipped. -/
def scanItemsRev : List Item → Option String
  | [] => none
  | .image url :: rest =>
    match urlPayload url with
    | some p => some p
    | none => scanItemsRev rest
  | .text _ :: rest => scanItemsRev rest
  | .toolUse :: rest => scanItemsRev rest
  | .functionCall :: rest => scanItemsRev rest

/-- The image one message contributes to `_extract_latest_screenshot`:
for a user message with list content, the latest well-formed image item;
for a `computer_call_output` whose output is an `input_image`, its URL
payload; `none` otherwise. (In the source, every failed inner candidate
falls through to the next message of the outer loop, so per-message
extraction and the outer scan compose exactly this way.) -/
def msgLatestImage : Message → Option String
  | .user (.items l) => scanItemsRev l.reverse
  | .computerCallOutput outputType url =>
    if outputType = "input_image" then urlPayload url else none
  | _ => none

/-- The outer `for message in reversed(messages)` scan of
`_extract_latest_screenshot` (argument already reversed). -/
def scanMsgsRev : List Message → Option String
  | [] => none
  | m :: rest =>
    match msgLatestImage m with
    | some p => some p
    | none => scanMsgsRev rest

/-- `_extract_latest_screenshot(messages)`. -/
def extract_latest_screenshot (messages : List Message) : Option String :=
  scanMsgsRev messages.reverse

/-- Number of `image_url` items of a content list
(`total_images = sum(1 for item ... if item.get("type") == "image_url")`). -/
def countImages (l : List Item) : ℕ :=
  (l.filter itemIsImage).length

/-- The item loop of `_inject_ocr_into_messages`: walk the content,
counting images seen; immediately after the item that is the last image
(and only once), append the OCR listing as a new text item. -/
def injectLoop (ocr : String) (total : ℕ) : List Item → ℕ → Bool → List Item
  | [], _, _ => []
  | .image u :: rest, seen, injected =>
    if seen + 1 = total ∧ injected = false then
      .image u :: .text ("\n" ++ ocr ++ "\n") :: injectLoop ocr total rest (seen + 1) true
    else
      .image u :: injectLoop ocr total rest (seen + 1) injected
  | it :: rest, seen, injected => it :: injectLoop ocr total rest seen injected

/-- The no-image fallback of `_inject_ocr_into_messages`: the OCR listing
is prepended to the first text item (content without a text item is left
unchanged). -/
def injectFallback (ocr : String) : List Item → List Item
  | [] => []
  | .text s :: rest => .text (ocr ++ "\n\n" ++ s) :: rest
  | it :: rest => it :: injectFallback ocr rest

/-- Per-content injection: with at least one image the loop fires exactly
at the last image; with none, the fallback runs. -/
def injectContent (ocr : String) (l : List Item) : List Item :=
  if countImages l = 0 then injectFallback ocr l
  else injectLoop ocr (countImages l) l 0 false

/-- Per-message step of `_inject_ocr_into_messages`: only messages with
`role == "user"` and list-shaped content are rebuilt. -/
def injectMsg (ocr : String) : Message → Message
  | .user (.items l) => .user (.items (injectContent ocr l))
  | m => m

/-- `_inject_ocr_into_messages(messages, ocr_text)`. -/
def inject_ocr_into_messages (messages : List Message) (ocr : String) : List Message :=
  messages.map (injectMsg ocr)

/-- `on_llm_start(messages)`: result is the pair (new `self.ocr_results`,
returned message list). With no extractable screenshot both are unchanged;
otherwise the registry is wholly replaced by OCR over the extracted image
and the formatted listing is injected. -/
def on_llm_start (engine : String → Option (List Detection)) (st : OcrResults)
    (messages : List Message) : OcrResults × List Message :=
  match extract_latest_screenshot messages with
  | none => (st, messages)
  | some img =>
    let st' := perform_ocr engine img
    (st', inject_ocr_into_messages messages (format_ocr_text st'))

/-! ## Restricted GUI capability proxy (`GUIOperator.py`) -/

/-- Observable outcome of `click_ocr_text`: either a click at concrete
coordinates together with the returned confirmation string, or a returned
failure string with no click performed (the source returns these strings,
it never raises across this boundary). -/
inductive ClickOutcome where
  | click (x y : ℤ) (msg : String)
  | failMsg (msg : String)
deriving DecidableEq, Repr

/-- The label used in the confirmation message:
`get_ocr_content(ocr_id) or f"ID {ocr_id}"` (a Python `or`, so an empty
content string also falls back). The source wraps the label in single
quotation marks, which the model elides. -/
def clickLabel (st : OcrResults) (ocrId : ℕ) : String :=
  match get_ocr_content st ocrId with
  | some c => if c = "" then "ID " ++ toString ocrId else c
  | none => "ID " ++ toString ocrId

/-- `GuiOperatorComputerProxy.click_ocr_text(ocr_id)` (the callback is
always present, as wired in `create_gui_operator`). `clickErr x y = true`
models `interface.left_click(x, y)` raising; the exception text is elided
from the returned error string. -/
def click_ocr_text (clickErr : ℤ → ℤ → Bool) (st : OcrResults) (ocrId : ℕ) : ClickOutcome :=
  match get_ocr_bbox st ocrId with
  | none => .failMsg ("Error: OCR ID " ++ toString ocrId ++ " not found")
  | some (x1, y1, x2, y2) =>
    let cx := (x1 + x2).fdiv 2
    let cy := (y1 + y2).fdiv 2
    if clickErr cx cy then
      .failMsg ("Error clicking OCR text element " ++ toString ocrId ++ ":")
    else
      .click cx cy ("Successfully clicked on OCR text element: " ++ clickLabel st ocrId
        ++ " at (" ++ toString cx ++ ", " ++ toString cy ++ ")")

/-- The call `GuiInterfaceProxy.scroll` forwards to the real interface:
discrete down/up clicks, or a raw coordinate scroll. -/
inductive ScrollAction where
  | down (clicks : ℤ)
  | up (clicks : ℤ)
  | raw (x y : ℤ)
deriving DecidableEq, Repr

/-- `GuiInterfaceProxy.scroll(x, y, scroll_x, scroll_y)`. The real
interface exposes `scroll_down`/`scroll_up` (the proxy itself forwards to
them two lines below), so the `hasattr` guards take their positive branch.
Python `//` is `Int.fdiv`; the negative branch divides `abs(scroll_y)`. -/
def proxy_scroll (x y scroll_x scroll_y : ℤ) : ScrollAction :=
  if 0 < scroll_y then .down (max 1 (scroll_y.fdiv 100))
  else if scroll_y < 0 then .up (max 1 ((|scroll_y|).fdiv 100))
  else .raw x y

/-! ## Event broadcaster (`CoAct1.broadcast_event`) -/

/-- `broadcast_event` over the registry `self.websocket_clients` (clients
named by naturals): every client is attempted in turn, a failed `send`
(per the `sendOk` oracle) is caught and the client collected, and the
collected clients are then discarded from the registry. The whole function
returns normally — it never raises to its caller. Result: (clients that
received the message, registry afterwards). -/
def broadcast_event (sendOk : ℕ → Bool) (clients : List ℕ) : List ℕ × List ℕ :=
  let delivered := clients.filter (fun c => sendOk c)
  let disconnected := clients.filter (fun c => !sendOk c)
  (delivered, clients.filter (fun c => !disconnected.contains c))

/-- `websocket_handler` registration: `self.websocket_clients.add(ws)`
(set semantics). -/
def register (clients : List ℕ) (fresh : ℕ) : List ℕ :=
  if clients.contains fresh then clients else clients ++ [fresh]

/-! ## Sub-agent completion message (`_extract_sub_agent_final_message`) -/

/-- The per-message marker check: for list content, any `tool_use` or
`function_call` item; for other content, Python's substring test on
`str(content)`. -/
def has_function_calls (c : Content) : Bool :=
  match c with
  | .items l => l.any (fun it => it = .toolUse || it = .functionCall)
  | .str s => strContains s "function_call" || strContains s "tool_use"

/-- Python truthiness of a `content` value (`... and content`). -/
def contentTruthy : Content → Bool
  | .str s => s ≠ ""
  | .items l => !l.isEmpty

/-- The fixed fallback string of `_extract_sub_agent_final_message`. -/
def sentinelMsg : String := "Sub-agent completed task (no explicit completion message found)"

/-- The `for message in reversed(history)` scan (argument already
reversed): the first assistant message whose content is truthy and free of
function-call markers wins. -/
def extractRev : List Message → Content
  | [] => .str sentinelMsg
  | .assistant c :: rest =>
    if has_function_calls c = false ∧ contentTruthy c = true then c else extractRev rest
  | .user _ :: rest => extractRev rest
  | .computerCallOutput _ _ :: rest => extractRev rest
  | .functionCall _ _ :: rest => extractRev rest
  | .functionCallOutput _ _ :: rest => extractRev rest
  | .otherMsg :: rest => extractRev rest

/-- `_extract_sub_agent_final_message(history)` (the source returns
`str(content)`; the model returns the content value itself). -/
def extract_sub_agent_final_message (history : List Message) : Content :=
  extractRev history.reverse

/-- The first message of `l` that is an assistant message with truthy,
marker-free content, by `List.find?`; the sentinel when there is none. -/
def specFindAssistant (l : List Message) : Content :=
  match l.find? (fun m =>
      match m with
      | .assistant c => !has_function_calls c && contentTruthy c
      | _ => false) with
  | some (.assistant c) => c
  | _ => .str sentinelMsg

/-- Restatement of the spec sentence of §4.4 (`Summarizing`), for
comparison with `extract_sub_agent_final_message`: the content of the
first turn from the end that is an assistant turn with truthy, marker-free
content; the sentinel if none exists. -/
def specExtractFinal (history : List Message) : Content :=
  specFindAssistant history.reverse

/-! ## The delegation control loop (`CoAct1.run`) -/

/-- The first `function_call` item yielded by the orchestrator's planning
call at one iteration: a tool name and the parsed `subtask` argument. -/
structure Delegation where
  name : String
  subtask : String
deriving DecidableEq, Repr

/-- The external world of one run, indexed by the 0-based iteration:
`obsShot i` the observation screenshot at the top of iteration `i` (`none`
models the awaited `screenshot()` raising), `plan i` the planner's first
`function_call` item (`none`: no delegation issued), `subOutput i` the
output items the delegate appends to its sub-history, and `finalShot i`
the screenshot awaited after the delegate completes (`none`: raises). -/
structure RunEnv where
  obsShot : ℕ → Option String
  plan : ℕ → Option Delegation
  subOutput : ℕ → List Message
  finalShot : ℕ → Option String

/-- The observable events of one run, in program order. `obsTaken` /
`obsFailed` record the observation screenshot attempt (a success is
broadcast as a `screenshot_update`); `planned` records the planning call;
`completed s` is the `task_completed` broadcast carrying `step = s`;
`finalShotTaken` records the awaited-and-broadcast final screenshot;
`agentState` stands for an `agent_state` broadcast. Steps are 1-based as
printed and broadcast (`step = i + 1`). -/
inductive TraceEv where
  | taskStarted
  | agentState
  | obsTaken (step : ℕ)
  | obsFailed (step : ℕ)
  | planned (step : ℕ)
  | noDelegation (step : ℕ)
  | completed (step : ℕ)
  | delegated (step : ℕ) (agent : String)
  | unknownDelegation (step : ℕ) (name : String)
  | finalShotTaken (step : ℕ)
  | subCompleted (step : ℕ) (result : Content)
deriving DecidableEq, Repr

/-- The fixed per-iteration prompt text of the orchestrator observation. -/
def obsPrompt : String :=
  "What is the next subtask based on the current progress? (or you can call task_completed)"

/-- The observation step at the top of one iteration: on success the rich
user turn (task text, fixed prompt, screenshot) is appended and the local
`current_screenshot_b64` is set; on a caught capture failure a text-only
user turn is appended and the local keeps its previous value. Returns
(new history, new `current_screenshot_b64`, trace). -/
def observe (env : RunEnv) (task : String) (i : ℕ) (hist : List Message)
    (cur : Option String) : List Message × Option String × List TraceEv :=
  match env.obsShot i with
  | some s =>
    (hist ++ [Message.user (Content.items
        [Item.text (task ++ "\n"), Item.text obsPrompt, Item.image (pngDataUrl ++ s)])],
      some s, [TraceEv.obsTaken (i + 1)])
  | none =>
    (hist ++ [Message.user (Content.str obsPrompt)], cur, [TraceEv.obsFailed (i + 1)])

/-- Result of one loop iteration: continue into the next iteration with
the updated orchestrator history and screenshot local, `break` out of the
loop normally, or abort the whole run with an uncaught exception. Each
carries the events of the iteration. -/
inductive StepRes where
  | cont (hist : List Message) (cur : Option String) (tr : List TraceEv)
  | stop (tr : List TraceEv)
  | fail (tr : List TraceEv)
deriving DecidableEq, Repr

/-- The trace of a step result. -/
def StepRes.trace : StepRes → List TraceEv
  | .cont _ _ tr => tr
  | .stop tr => tr
  | .fail tr => tr

/-- One iteration of the `for i in range(10)` body of `CoAct1.run`:
observe; consult the planner (no delegation ⇒ `break`); append the
delegation to the history; on `task_completed` broadcast idle state and
the completion event and `break`; on a recognized delegate broadcast
state/delegation events, seed the sub-history from the current screenshot
local (unassigned local ⇒ the `NameError` aborts), run the delegate, await
the final screenshot (failure ⇒ aborts, this await is not guarded),
broadcast it, extract and broadcast the completion message, and append the
`function_call_output` result turn; on an unknown tool name `continue`. -/
def runStep (env : RunEnv) (task : String) (i : ℕ) (hist : List Message)
    (cur : Option String) : StepRes :=
  let ob := observe env task i hist cur
  let hist1 := ob.1
  let cur1 := ob.2.1
  let tr1 := ob.2.2
  match env.plan i with
  | none => .stop (tr1 ++ [.planned (i + 1), .noDelegation (i + 1)])
  | some d =>
    let tr2 := tr1 ++ [TraceEv.planned (i + 1)]
    let hist2 := hist1 ++ [Message.functionCall d.name d.subtask]
    if d.name = "task_completed" then
      .stop (tr2 ++ [.agentState, .completed (i + 1)])
    else if d.name = "delegate_to_programmer" ∨ d.name = "delegate_to_gui_operator" then
      let agent := if d.name = "delegate_to_programmer" then "Programmer" else "GUIOperator"
      let tr3 := tr2 ++ [TraceEv.agentState, TraceEv.delegated (i + 1) agent]
      match cur1 with
      | none => .fail tr3
      | some shot =>
        let subHist := Message.user (Content.items
            [Item.text (d.subtask ++ "\n\nHere is the current screen state:"),
             Item.image (pngDataUrl ++ shot)]) :: env.subOutput i
        match env.finalShot i with
        | none => .fail tr3
        | some fs =>
          let fm := extract_sub_agent_final_message subHist
          .cont
            (hist2 ++ [Message.functionCallOutput fm
              (if fs = "" then none else some (pngDataUrl ++ fs))])
            cur1
            (tr3 ++ [.finalShotTaken (i + 1), .agentState, .subCompleted (i + 1) fm])
    else
      .cont hist2 cur1 (tr2 ++ [.unknownDelegation (i + 1) d.name])

/-- Did the run end normally (loop exhausted or `break`), or abort with an
uncaught exception? -/
inductive Outcome where
  | finished
  | errored
deriving DecidableEq, Repr

/-- The iteration loop, driven by the remaining iteration count (`10 - i`
at entry of iteration `i`): collects the trace and the outcome. -/
def runAux (env : RunEnv) (task : String) : ℕ → ℕ → List Message → Option String →
    List TraceEv × Outcome
  | 0, _, _, _ => ([], .finished)
  | fuel + 1, i, hist, cur =>
    match runStep env task i hist cur with
    | .cont h c tr => let r := runAux env task fuel (i + 1) h c; (tr ++ r.1, r.2)
    | .stop tr => (tr, .finished)
    | .fail tr => (tr, .errored)

/-- `CoAct1.run(task)`: the startup broadcasts (`user_task_started`, the
initial `agent_state`) followed by the `for i in range(10)` loop starting
from an empty orchestrator history and an unassigned screenshot local. -/
def runCoact (env : RunEnv) (task : String) : List TraceEv × Outcome :=
  let r := runAux env task 10 0 [] none
  (TraceEv.taskStarted :: TraceEv.agentState :: r.1, r.2)

/-- Is a trace event a planning consultation? -/
def isPlanned : TraceEv → Bool
  | .planned _ => true
  | _ => false

/-- Number of planning iterations recorded in a trace. -/
def plannedCount (tr : List TraceEv) : ℕ :=
  (tr.filter isPlanned).length

/-- The loop state (orchestrator history, screenshot local) on entry to
iteration `i`, or `none` when the loop has already stopped or aborted
before reaching iteration `i`. -/
def iterState (env : RunEnv) (task : String) : ℕ → Option (List Message × Option String)
  | 0 => some ([], none)
  | i + 1 =>
    match iterState env task i with
    | some (h, c) =>
      match runStep env task i h c with
      | .cont h2 c2 _ => some (h2, c2)
      | _ => none
    | none => none

/-! ## Concrete inputs used by witnesses and counterexamples -/

/-- No image reachable by `_extract_latest_screenshot` in this message:
no `image_url` item in user list content and no `input_image` computer
call output. -/
def msgImageFree : Message → Bool
  | .user (.items l) => l.all (fun it => !itemIsImage it)
  | .computerCallOutput outputType _ => !(outputType = "input_image")
  | _ => true

/-- An environment whose planner immediately answers `task_completed`. -/
def envFinish : RunEnv where
  obsShot := fun _ => some "img"
  plan := fun _ => some ⟨"task_completed", ""⟩
  subOutput := fun _ => []
  finalShot := fun _ => some "img"

/-- An environment where every awaited call succeeds except the final
screenshot after the step-1 delegation, which raises. -/
def envFinalFail : RunEnv where
  obsShot := fun _ => some "s"
  plan := fun i => if i = 0 then some ⟨"delegate_to_programmer", "sub"⟩ else none
  subOutput := fun _ => []
  finalShot := fun _ => none

/-- An environment whose observation screenshots always fail and whose
planner abstains. -/
def envObsFail : RunEnv where
  obsShot := fun _ => none
  plan := fun _ => none
  subOutput := fun _ => []
  finalShot := fun _ => none

/-- Two user turns, each carrying an image: the earlier one also a text
segment. -/
def exMsgs : List Message :=
  [Message.user (Content.items [Item.image "a", Item.text "t1"]),
   Message.user (Content.items [Item.image "b"])]

/-- Scenario detection `"OK"` at polygon (10,10)-(50,30), score 0.95. -/
def dOK : Detection :=
  ⟨"OK", mkRat 95 100, [((10 : ℚ), (10 : ℚ)), (50, 10), (50, 30), (10, 30)]⟩

/-- Scenario detection `"Cancel"` at polygon (60,10)-(120,30), score 0.5. -/
def dCancel : Detection :=
  ⟨"Cancel", mkRat 5 10, [((60 : ℚ), (10 : ℚ)), (120, 10), (120, 30), (60, 30)]⟩

/-- A detection whose confidence score is exactly the 0.9 threshold. -/
def dHalfway : Detection :=
  ⟨"Edge", mkRat 9 10, [((10 : ℚ), (10 : ℚ)), (50, 10), (50, 30), (10, 30)]⟩

/-- A detection engine oracle producing the two scenario detections on
every image. -/
def engineScenario : String → Option (List Detection) :=
  fun _ => some [dOK, dCancel]

/-- A polygon with fractional vertex coordinates (1/2, 1/2) and
(5/2, 5/2). -/
def boxFrac : List (ℚ × ℚ) :=
  [(mkRat 1 2, mkRat 1 2), (mkRat 5 2, mkRat 5 2)]

/-- A message list carrying one screenshot with payload `"imgB"`. -/
def msgsB : List Message :=
  [Message.user (Content.items [Item.image (pngDataUrl ++ "imgB")])]

/-- A message list with no image anywhere. -/
def msgsNoImage : List Message :=
  [Message.user (Content.str "hi")]

/-- A send oracle under which exactly client 1 is broken. -/
def sendOkExcept1 : ℕ → Bool :=
  fun c => !(c = 1)

/-! ## Helper lemmas -/

theorem pyInt_eq (q : ℚ) : pyInt q = if 0 ≤ q then ⌊q⌋ else ⌈q⌉ := by
  unfold pyInt
  split
  · rename_i h
    rw [Int.tdiv_eq_ediv (by exact_mod_cast Rat.num_nonneg.mpr h) (Int.ofNat_nonneg _)]
    rw [Rat.floor_def]
  · rename_i h
    push_neg at h
    have hneg : q.num < 0 := Rat.num_neg.mpr h
    have hceil : ⌈q⌉ = -⌊-q⌋ := by rw [Int.floor_neg]; ring
    rw [hceil, Rat.floor_def]
    have hnum : (-q).num = -q.num := Rat.neg_num q
    have hden : (-q).den = q.den := Rat.neg_den q
    rw [hnum, hden]
    have htd : q.num.tdiv q.den = -((-q.num).tdiv q.den) := by
      rw [Int.neg_tdiv]; ring
    rw [htd, Int.tdiv_eq_ediv (by omega) (Int.ofNat_nonneg _)]

theorem textThreshold_eq : textThreshold = 9 / 10 := by
  norm_num [textThreshold, Rat.mkRat_eq_div]

theorem pyInt_intCast (a : ℤ) : pyInt ((a : ℤ) : ℚ) = a := by
  unfold pyInt
  rw [Rat.num_intCast, Rat.den_intCast]
  exact Int.tdiv_one a

theorem pyInt_mono {a b : ℚ} (hab : a ≤ b) : pyInt a ≤ pyInt b := by
  rw [pyInt_eq, pyInt_eq]
  by_cases ha : 0 ≤ a <;> by_cases hb : 0 ≤ b <;> simp [ha, hb]
  · exact Int.floor_le_floor hab
  · exact absurd (le_trans ha hab) hb
  · calc ⌈a⌉ ≤ 0 := Int.ceil_le.mpr (by exact_mod_cast le_of_not_le ha)
      _ ≤ ⌊b⌋ := Int.le_floor.mpr (by exact_mod_cast hb)
  · exact Int.ceil_le_ceil hab

theorem foldl_min_le_init (xs : List ℚ) : ∀ a : ℚ, xs.foldl min a ≤ a := by
  induction xs with
  | nil => intro a; simp
  | cons x xs ih =>
    intro a
    calc (x :: xs).foldl min a = xs.foldl min (min a x) := rfl
      _ ≤ min a x := ih (min a x)
      _ ≤ a := min_le_left a x

theorem foldl_min_le_mem (xs : List ℚ) : ∀ a x, x ∈ xs → xs.foldl min a ≤ x := by
  induction xs with
  | nil => intro a x hx; cases hx
  | cons y ys ih =>
    intro a x hx
    rcases List.mem_cons.mp hx with h | h
    · rw [h]
      calc (y :: ys).foldl min a = ys.foldl min (min a y) := rfl
        _ ≤ min a y := foldl_min_le_init ys (min a y)
        _ ≤ y := min_le_right a y
    · exact ih (min a y) x h

theorem foldl_max_init_le (xs : List ℚ) : ∀ a : ℚ, a ≤ xs.foldl max a := by
  induction xs with
  | nil => intro a; simp
  | cons x xs ih =>
    intro a
    calc a ≤ max a x := le_max_left a x
      _ ≤ xs.foldl max (max a x) := ih (max a x)
      _ = (x :: xs).foldl max a := rfl

theorem foldl_max_mem_le (xs : List ℚ) : ∀ a x, x ∈ xs → x ≤ xs.foldl max a := by
  induction xs with
  | nil => intro a x hx; cases hx
  | cons y ys ih =>
    intro a x hx
    rcases List.mem_cons.mp hx with h | h
    · subst h
      calc x ≤ max a x := le_max_right a x
        _ ≤ ys.foldl max (max a x) := foldl_max_init_le ys (max a x)
        _ = (x :: ys).foldl max a := rfl
    · exact ih (max a y) x h

theorem foldl_min_cases (xs : List ℚ) : ∀ a, xs.foldl min a = a ∨ xs.foldl min a ∈ xs := by
  induction xs with
  | nil => intro a; left; rfl
  | cons y ys ih =>
    intro a
    rcases ih (min a y) with h | h
    · rcases min_choice a y with hm | hm
      · left
        calc (y :: ys).foldl min a = ys.foldl min (min a y) := rfl
          _ = min a y := h
          _ = a := hm
      · right
        apply List.mem_cons.mpr
        left
        calc (y :: ys).foldl min a = ys.foldl min (min a y) := rfl
          _ = min a y := h
          _ = y := hm
    · right
      exact List.mem_cons.mpr (Or.inr h)

theorem foldl_max_cases (xs : List ℚ) : ∀ a, xs.foldl max a = a ∨ xs.foldl max a ∈ xs := by
  induction xs with
  | nil => intro a; left; rfl
  | cons y ys ih =>
    intro a
    rcases ih (max a y) with h | h
    · rcases max_choice a y with hm | hm
      · left
        calc (y :: ys).foldl max a = ys.foldl max (max a y) := rfl
          _ = max a y := h
          _ = a := hm
      · right
        apply List.mem_cons.mpr
        left
        calc (y :: ys).foldl max a = ys.foldl max (max a y) := rfl
          _ = max a y := h
          _ = y := hm
    · right
      exact List.mem_cons.mpr (Or.inr h)

theorem minList_le {l : List ℚ} {x : ℚ} (hx : x ∈ l) : minList l ≤ x := by
  cases l with
  | nil => cases hx
  | cons y ys =>
    rcases List.mem_cons.mp hx with h | h
    · rw [h]; exact foldl_min_le_init ys y
    · exact foldl_min_le_mem ys y x h

theorem le_maxList {l : List ℚ} {x : ℚ} (hx : x ∈ l) : x ≤ maxList l := by
  cases l with
  | nil => cases hx
  | cons y ys =>
    rcases List.mem_cons.mp hx with h | h
    · rw [h]; exact foldl_max_init_le ys y
    · exact foldl_max_mem_le ys y x h

theorem minList_mem {l : List ℚ} (hl : l ≠ []) : minList l ∈ l := by
  cases l with
  | nil => exact absurd rfl hl
  | cons y ys =>
    rcases foldl_min_cases ys y with h | h
    · exact List.mem_cons.mpr (Or.inl h)
    · exact List.mem_cons.mpr (Or.inr h)

theorem maxList_mem {l : List ℚ} (hl : l ≠ []) : maxList l ∈ l := by
  cases l with
  | nil => exact absurd rfl hl
  | cons y ys =>
    rcases foldl_max_cases ys y with h | h
    · exact List.mem_cons.mpr (Or.inl h)
    · exact List.mem_cons.mpr (Or.inr h)

theorem countImages_cons_image (u : String) (l : List Item) :
    countImages (Item.image u :: l) = countImages l + 1 := by
  simp [countImages, List.filter_cons, itemIsImage]

theorem countImages_cons_of_not {it : Item} (h : itemIsImage it = false) (l : List Item) :
    countImages (it :: l) = countImages l := by
  simp [countImages, List.filter_cons, h]

theorem countImages_append (l1 l2 : List Item) :
    countImages (l1 ++ l2) = countImages l1 + countImages l2 := by
  simp [countImages, List.filter_append]

theorem injectLoop_true (ocr : String) (total : ℕ) :
    ∀ (l : List Item) (seen : ℕ), injectLoop ocr total l seen true = l := by
  intro l
  induction l with
  | nil => intro seen; rfl
  | cons it rest ih =>
    intro seen
    cases it with
    | text s => simp [injectLoop, ih]
    | image u => simp [injectLoop, ih]
    | toolUse => simp [injectLoop, ih]
    | functionCall => simp [injectLoop, ih]

theorem injectLoop_after_last (ocr : String) :
    ∀ (pre : List Item) (u : String) (post : List Item) (seen : ℕ),
      countImages post = 0 →
      injectLoop ocr (seen + countImages pre + 1) (pre ++ Item.image u :: post) seen false
        = pre ++ Item.image u :: Item.text ("\n" ++ ocr ++ "\n") :: post := by
  intro pre
  induction pre with
  | nil =>
    intro u post seen hpost
    simp only [List.nil_append, countImages, List.filter_nil, List.length_nil, Nat.add_zero]
    simp [injectLoop, injectLoop_true]
  | cons it pre ih =>
    intro u post seen hpost
    cases it with
    | text s =>
      have hc : countImages (Item.text s :: pre) = countImages pre := by
        simp [countImages, List.filter_cons, itemIsImage]
      rw [hc]
      simpa [injectLoop] using ih u post seen hpost
    | toolUse =>
      have hc : countImages (Item.toolUse :: pre) = countImages pre := by
        simp [countImages, List.filter_cons, itemIsImage]
      rw [hc]
      simpa [injectLoop] using ih u post seen hpost
    | functionCall =>
      have hc : countImages (Item.functionCall :: pre) = countImages pre := by
        simp [countImages, List.filter_cons, itemIsImage]
      rw [hc]
      simpa [injectLoop] using ih u post seen hpost
    | image v =>
      rw [countImages_cons_image]
      have hne : ¬(seen + 1 = seen + (countImages pre + 1) + 1 ∧ True) :=
        fun hcon => absurd hcon.1 (by omega)
      have harith : seen + (countImages pre + 1) + 1 = (seen + 1) + countImages pre + 1 := by
        omega
      simp only [List.cons_append, injectLoop, List.append_eq]
      rw [if_neg hne, harith, ih u post (seen + 1) hpost]

theorem injectContent_after_last (ocr : String) (pre : List Item) (u : String)
    (post : List Item) (hpost : countImages post = 0) :
    injectContent ocr (pre ++ Item.image u :: post)
      = pre ++ Item.image u :: Item.text ("\n" ++ ocr ++ "\n") :: post := by
  have htot : countImages (pre ++ Item.image u :: post) = countImages pre + 1 := by
    rw [countImages_append, countImages_cons_image, hpost]
  unfold injectContent
  rw [htot]
  rw [if_neg (by omega)]
  have h0 : countImages pre + 1 = 0 + countImages pre + 1 := by omega
  rw [h0]
  exact injectLoop_after_last ocr pre u post 0 hpost

theorem injectFallback_first_text (ocr : String) :
    ∀ (pre : List Item), (∀ it ∈ pre, itemIsText it = false) →
      ∀ (s : String) (rest : List Item),
        injectFallback ocr (pre ++ Item.text s :: rest)
          = pre ++ Item.text (ocr ++ "\n\n" ++ s) :: rest := by
  intro pre
  induction pre with
  | nil => intro _ s rest; rfl
  | cons it pre ih =>
    intro hpre s rest
    have hit : itemIsText it = false := hpre it (List.mem_cons_self it pre)
    have hpre2 : ∀ it2 ∈ pre, itemIsText it2 = false :=
      fun it2 h2 => hpre it2 (List.mem_cons_of_mem it h2)
    cases it with
    | text s2 => simp [itemIsText] at hit
    | image u => simpa [injectFallback] using ih hpre2 s rest
    | toolUse => simpa [injectFallback] using ih hpre2 s rest
    | functionCall => simpa [injectFallback] using ih hpre2 s rest

theorem injectContent_no_image (ocr : String) (l : List Item) (h : countImages l = 0) :
    injectContent ocr l = injectFallback ocr l := by
  unfold injectContent
  rw [h]
  simp

theorem injectMsg_not_user_items (ocr : String) (m : Message)
    (h : ∀ l : List Item, m ≠ .user (.items l)) : injectMsg ocr m = m := by
  cases m with
  | user c =>
    cases c with
    | str s => rfl
    | items l => exact absurd rfl (h l)
  | assistant c => rfl
  | computerCallOutput t u => rfl
  | functionCall n s => rfl
  | functionCallOutput r u => rfl
  | otherMsg => rfl

theorem extractRev_eq_find (l : List Message) :
    extractRev l = specFindAssistant l := by
  induction l with
  | nil => rfl
  | cons m rest ih =>
    cases m with
    | assistant c =>
      by_cases h1 : has_function_calls c = false ∧ contentTruthy c = true
      · have hp : (!has_function_calls c && contentTruthy c) = true := by
          simp [h1.1, h1.2]
        simp [extractRev, specFindAssistant, h1, List.find?, hp]
      · have hp : (!has_function_calls c && contentTruthy c) = false := by
          cases hfc : has_function_calls c with
          | true => simp [hfc]
          | false =>
            cases htr : contentTruthy c with
            | false => simp [htr]
            | true => exact absurd ⟨hfc, htr⟩ h1
        simp only [specFindAssistant, List.find?, hp] at ih ⊢
        simpa [extractRev, h1] using ih
    | user c =>
      simp only [specFindAssistant, List.find?] at ih ⊢
      simpa [extractRev] using ih
    | computerCallOutput t u =>
      simp only [specFindAssistant, List.find?] at ih ⊢
      simpa [extractRev] using ih
    | functionCall n s =>
      simp only [specFindAssistant, List.find?] at ih ⊢
      simpa [extractRev] using ih
    | functionCallOutput r u =>
      simp only [specFindAssistant, List.find?] at ih ⊢
      simpa [extractRev] using ih
    | otherMsg =>
      simp only [specFindAssistant, List.find?] at ih ⊢
      simpa [extractRev] using ih

theorem scanItemsRev_none :
    ∀ l : List Item, (∀ it ∈ l, itemIsImage it = false) → scanItemsRev l = none := by
  intro l
  induction l with
  | nil => intro _; rfl
  | cons it rest ih =>
    intro h
    have hrest : ∀ it2 ∈ rest, itemIsImage it2 = false :=
      fun it2 h2 => h it2 (List.mem_cons_of_mem it h2)
    cases it with
    | image u => simp [itemIsImage] at h
    | text s => exact ih hrest
    | toolUse => exact ih hrest
    | functionCall => exact ih hrest

theorem scanMsgsRev_none :
    ∀ l : List Message, (∀ m ∈ l, msgImageFree m = true) → scanMsgsRev l = none := by
  intro l
  induction l with
  | nil => intro _; rfl
  | cons m rest ih =>
    intro h
    have hrest : ∀ m2 ∈ rest, msgImageFree m2 = true :=
      fun m2 h2 => h m2 (List.mem_cons_of_mem m h2)
    have hm : msgImageFree m = true := h m (List.mem_cons_self m rest)
    have hnone : msgLatestImage m = none := by
      cases m with
      | user c =>
        cases c with
        | str s => rfl
        | items li =>
          have hfree : ∀ it ∈ li, itemIsImage it = false := by
            simpa [msgImageFree, List.all_eq_true] using hm
          have hfree2 : ∀ it ∈ li.reverse, itemIsImage it = false := by
            intro it hit
            exact hfree it (List.mem_reverse.mp hit)
          exact scanItemsRev_none li.reverse hfree2
      | computerCallOutput t u =>
        have ht : ¬(t = "input_image") := by
          simpa [msgImageFree] using hm
        simp [msgLatestImage, ht]
      | assistant c => rfl
      | functionCall n s => rfl
      | functionCallOutput r u => rfl
      | otherMsg => rfl
    rw [scanMsgsRev, hnone]
    exact ih hrest

theorem filter_not_sendOk_eq_single {clients : List ℕ} {sendOk : ℕ → Bool} {c : ℕ}
    (hnd : clients.Nodup) (hmem : c ∈ clients) (hc : sendOk c = false)
    (hothers : ∀ d ∈ clients, d ≠ c → sendOk d = true) :
    clients.filter (fun d => !sendOk d) = [c] := by
  induction clients with
  | nil => cases hmem
  | cons a rest ih =>
    have hnd2 : rest.Nodup := (List.nodup_cons.mp hnd).2
    by_cases hac : a = c
    · have hnotmem : c ∉ rest := hac ▸ (List.nodup_cons.mp hnd).1
      have hrest : rest.filter (fun d => !sendOk d) = [] := by
        apply List.filter_eq_nil_iff.mpr
        intro d hd
        have hdc : d ≠ c := fun heq => hnotmem (heq ▸ hd)
        simp [hothers d (List.mem_cons_of_mem a hd) hdc]
      rw [List.filter_cons]
      simp [hac, hc, hrest]
    · have hmem2 : c ∈ rest := by
        rcases List.mem_cons.mp hmem with h | h
        · exact absurd h.symm hac
        · exact h
      have hothers2 : ∀ d ∈ rest, d ≠ c → sendOk d = true :=
        fun d hd hdc => hothers d (List.mem_cons_of_mem a hd) hdc
      have ha : sendOk a = true := hothers a (List.mem_cons_self a rest) hac
      rw [List.filter_cons]
      simp [ha]
      exact ih hnd2 hmem2 hothers2

theorem length_filter_add_length_filter_not (l : List ℕ) (p : ℕ → Bool) :
    (l.filter p).length + (l.filter (fun d => !p d)).length = l.length := by
  induction l with
  | nil => rfl
  | cons a rest ih =>
    rw [List.filter_cons, List.filter_cons]
    by_cases hp : p a
    · simp [hp]; omega
    · simp [hp]; omega

theorem plannedCount_append (a b : List TraceEv) :
    plannedCount (a ++ b) = plannedCount a + plannedCount b := by
  simp [plannedCount, List.filter_append]

theorem observe_none {env : RunEnv} {i : ℕ} (task : String) (hist : List Message)
    (cur : Option String) (henv : env.obsShot i = none) :
    observe env task i hist cur
      = (hist ++ [Message.user (Content.str obsPrompt)], cur, [TraceEv.obsFailed (i + 1)]) := by
  simp [observe, henv]

theorem observe_some {env : RunEnv} {i : ℕ} {s : String} (task : String) (hist : List Message)
    (cur : Option String) (henv : env.obsShot i = some s) :
    observe env task i hist cur
      = (hist ++ [Message.user (Content.items
            [Item.text (task ++ "\n"), Item.text obsPrompt, Item.image (pngDataUrl ++ s)])],
          some s, [TraceEv.obsTaken (i + 1)]) := by
  simp [observe, henv]

theorem plannedCount_observe (env : RunEnv) (task : String) (i : ℕ) (hist : List Message)
    (cur : Option String) : plannedCount (observe env task i hist cur).2.2 = 0 := by
  cases henv : env.obsShot i with
  | none => rw [observe_none task hist cur henv]; rfl
  | some s => rw [observe_some task hist cur henv]; rfl

theorem runStep_trace_structure (env : RunEnv) (task : String) (i : ℕ) (hist : List Message)
    (cur : Option String) :
    ∃ tr0, (runStep env task i hist cur).trace
        = (observe env task i hist cur).2.2 ++ TraceEv.planned (i + 1) :: tr0 ∧
      plannedCount tr0 = 0 := by
  unfold runStep
  cases hplan : env.plan i with
  | none =>
    refine ⟨[TraceEv.noDelegation (i + 1)], ?_, rfl⟩
    simp [StepRes.trace]
  | some d =>
    by_cases hname : d.name = "task_completed"
    · refine ⟨[TraceEv.agentState, TraceEv.completed (i + 1)], ?_, rfl⟩
      simp [hname, StepRes.trace]
    · by_cases hdel : d.name = "delegate_to_programmer" ∨ d.name = "delegate_to_gui_operator"
      · cases hcur : (observe env task i hist cur).2.1 with
        | none =>
          refine ⟨[TraceEv.agentState,
            TraceEv.delegated (i + 1)
              (if d.name = "delegate_to_programmer" then "Programmer" else "GUIOperator")], ?_, rfl⟩
          simp [hname, hdel, hcur, StepRes.trace]
        | some shot =>
          cases hfin : env.finalShot i with
          | none =>
            refine ⟨[TraceEv.agentState,
              TraceEv.delegated (i + 1)
                (if d.name = "delegate_to_programmer" then "Programmer" else "GUIOperator")], ?_, rfl⟩
            simp [hname, hdel, hcur, hfin, StepRes.trace]
          | some fs =>
            refine ⟨[TraceEv.agentState,
              TraceEv.delegated (i + 1)
                (if d.name = "delegate_to_programmer" then "Programmer" else "GUIOperator"),
              TraceEv.finalShotTaken (i + 1), TraceEv.agentState,
              TraceEv.subCompleted (i + 1)
                (extract_sub_agent_final_message
                  (Message.user (Content.items
                    [Item.text (d.subtask ++ "\n\nHere is the current screen state:"),
                     Item.image (pngDataUrl ++ shot)]) :: env.subOutput i))], ?_, ?_⟩
            · simp [hname, hdel, hcur, hfin, StepRes.trace]
            · rfl
      · refine ⟨[TraceEv.unknownDelegation (i + 1) d.name], ?_, rfl⟩
        simp [hname, hdel, StepRes.trace]

theorem plannedCount_runStep (env : RunEnv) (task : String) (i : ℕ) (hist : List Message)
    (cur : Option String) : plannedCount (runStep env task i hist cur).trace = 1 := by
  obtain ⟨tr0, htr, h0⟩ := runStep_trace_structure env task i hist cur
  rw [htr, plannedCount_append, plannedCount_observe]
  have hcons : plannedCount (TraceEv.planned (i + 1) :: tr0) = plannedCount tr0 + 1 := by
    simp [plannedCount, List.filter_cons, isPlanned]
  rw [hcons, h0]

theorem plannedCount_runAux (env : RunEnv) (task : String) :
    ∀ (fuel i : ℕ) (hist : List Message) (cur : Option String),
      plannedCount (runAux env task fuel i hist cur).1 ≤ fuel := by
  intro fuel
  induction fuel with
  | zero => intro i hist cur; simp [runAux, plannedCount]
  | succ fuel ih =>
    intro i hist cur
    have hone := plannedCount_runStep env task i hist cur
    cases hstep : runStep env task i hist cur with
    | cont h c tr =>
      rw [hstep] at hone
      have : runAux env task (fuel + 1) i hist cur
          = (tr ++ (runAux env task fuel (i + 1) h c).1, (runAux env task fuel (i + 1) h c).2) := by
        rw [runAux, hstep]
      rw [this]
      simp only [plannedCount_append]
      have := ih (i + 1) h c
      simp only [StepRes.trace] at hone
      omega
    | stop tr =>
      rw [hstep] at hone
      have heq : runAux env task (fuel + 1) i hist cur = (tr, Outcome.finished) := by
        rw [runAux, hstep]
      rw [heq]
      show plannedCount tr ≤ fuel + 1
      simp only [StepRes.trace] at hone
      omega
    | fail tr =>
      rw [hstep] at hone
      have heq : runAux env task (fuel + 1) i hist cur = (tr, Outcome.errored) := by
        rw [runAux, hstep]
      rw [heq]
      show plannedCount tr ≤ fuel + 1
      simp only [StepRes.trace] at hone
      omega

theorem runAux_decompose (env : RunEnv) (task : String) :
    ∀ (i : ℕ) (hist : List Message) (cur : Option String), i ≤ 10 →
      iterState env task i = some (hist, cur) →
      ∃ pre, (runAux env task 10 0 [] none).1 = pre ++ (runAux env task (10 - i) i hist cur).1 ∧
        (runAux env task 10 0 [] none).2 = (runAux env task (10 - i) i hist cur).2 ∧
        plannedCount pre = i := by
  intro i
  induction i with
  | zero =>
    intro hist cur _ hstate
    have hh : hist = [] ∧ cur = none := by
      have : (some (([] : List Message), (none : Option String)))
          = some (hist, cur) := hstate
      cases this
      exact ⟨rfl, rfl⟩
    obtain ⟨hh1, hh2⟩ := hh
    refine ⟨[], by rw [hh1, hh2]; rfl, by rw [hh1, hh2], rfl⟩
  | succ i ih =>
    intro hist cur hle hstate
    cases hprev : iterState env task i with
    | none =>
      rw [iterState, hprev] at hstate
      simp at hstate
    | some hc =>
      obtain ⟨h0, c0⟩ := hc
      rw [iterState, hprev] at hstate
      dsimp only at hstate
      have hstep : ∃ tr, runStep env task i h0 c0 = .cont hist cur tr := by
        cases hs : runStep env task i h0 c0 with
        | cont h2 c2 tr =>
          rw [hs] at hstate
          dsimp only at hstate
          simp only [Option.some.injEq, Prod.mk.injEq] at hstate
          exact ⟨tr, by rw [hstate.1, hstate.2]⟩
        | stop tr => rw [hs] at hstate; simp at hstate
        | fail tr => rw [hs] at hstate; simp at hstate
      obtain ⟨tr, hstep⟩ := hstep
      have hle2 : i ≤ 10 := by omega
      obtain ⟨pre, h1, h2, h3⟩ := ih h0 c0 hle2 hprev
      have hfuel : 10 - i = (10 - (i + 1)) + 1 := by omega
      have hrun : runAux env task (10 - i) i h0 c0
          = (tr ++ (runAux env task (10 - (i + 1)) (i + 1) hist cur).1,
             (runAux env task (10 - (i + 1)) (i + 1) hist cur).2) := by
        rw [hfuel, runAux, hstep]
      have htr1 : plannedCount tr = 1 := by
        have := plannedCount_runStep env task i h0 c0
        rw [hstep] at this
        simpa [StepRes.trace] using this
      refine ⟨pre ++ tr, ?_, ?_, ?_⟩
      · rw [h1, hrun, List.append_assoc]
      · rw [h2, hrun]
      · rw [plannedCount_append, h3, htr1]

theorem runStep_task_completed (env : RunEnv) (task : String) (i : ℕ) (hist : List Message)
    (cur : Option String) (d : Delegation) (hplan : env.plan i = some d)
    (hname : d.name = "task_completed") :
    ∃ t0, runStep env task i hist cur = .stop (t0 ++ [TraceEv.completed (i + 1)]) ∧
      plannedCount (t0 ++ [TraceEv.completed (i + 1)]) = 1 := by
  cases hobs : env.obsShot i with
  | none =>
    refine ⟨[TraceEv.obsFailed (i + 1), TraceEv.planned (i + 1), TraceEv.agentState], ?_, ?_⟩
    · unfold runStep
      rw [observe_none task hist cur hobs, hplan]
      simp [hname]
    · simp [plannedCount, List.filter_cons, isPlanned]
  | some s =>
    refine ⟨[TraceEv.obsTaken (i + 1), TraceEv.planned (i + 1), TraceEv.agentState], ?_, ?_⟩
    · unfold runStep
      rw [observe_some task hist cur hobs, hplan]
      simp [hname]
    · simp [plannedCount, List.filter_cons, isPlanned]

theorem runCoact_eq (env : RunEnv) (task : String) :
    runCoact env task
      = (TraceEv.taskStarted :: TraceEv.agentState :: (runAux env task 10 0 [] none).1,
         (runAux env task 10 0 [] none).2) := rfl

theorem plannedCount_startup (l : List TraceEv) :
    plannedCount (TraceEv.taskStarted :: TraceEv.agentState :: l) = plannedCount l := by
  simp [plannedCount, List.filter_cons, isPlanned]

/-! ## Claims -/

/-- **C1**: the control loop executes at most 10 planning iterations; and
whenever iteration `i` (0-based; step `i + 1`) is reached and the planner
issues a delegation named `task_completed` there, the run finishes, the
`task_completed` broadcast carrying `step = i + 1` is the final event of
the trace (hence no further screenshot is taken after that decision), and
exactly `i + 1` planning iterations happened. -/
theorem C1_loop_bound_and_completed :
    (∀ (env : RunEnv) (task : String), plannedCount (runCoact env task).1 ≤ 10) ∧
    (∀ (env : RunEnv) (task : String) (i : ℕ) (hist : List Message) (cur : Option String)
        (d : Delegation), i < 10 → iterState env task i = some (hist, cur) →
      env.plan i = some d → d.name = "task_completed" →
      ∃ tr, runCoact env task = (tr, Outcome.finished) ∧
        (∃ pre, tr = pre ++ [TraceEv.completed (i + 1)]) ∧
        plannedCount tr = i + 1) := by
  constructor
  · intro env task
    rw [runCoact_eq]
    show plannedCount (TraceEv.taskStarted :: TraceEv.agentState ::
      (runAux env task 10 0 [] none).1) ≤ 10
    rw [plannedCount_startup]
    exact plannedCount_runAux env task 10 0 [] none
  · intro env task i hist cur d hilt hstate hplan hname
    obtain ⟨pre, h1, h2, h3⟩ := runAux_decompose env task i hist cur (le_of_lt hilt) hstate
    obtain ⟨t0, hstop, hcount⟩ := runStep_task_completed env task i hist cur d hplan hname
    have hfuel : 10 - i = (10 - (i + 1)) + 1 := by omega
    have hrun : runAux env task (10 - i) i hist cur
        = (t0 ++ [TraceEv.completed (i + 1)], Outcome.finished) := by
      rw [hfuel, runAux, hstop]
    refine ⟨TraceEv.taskStarted :: TraceEv.agentState ::
      (pre ++ (t0 ++ [TraceEv.completed (i + 1)])), ?_, ?_, ?_⟩
    · rw [runCoact_eq, h1, h2, hrun]
    · exact ⟨TraceEv.taskStarted :: TraceEv.agentState :: pre ++ t0, by simp⟩
    · rw [plannedCount_startup, plannedCount_append, h3, hcount]

/-- Witness for C1: a planner that finishes immediately ends the run in
exactly one iteration, with `task_completed` carrying `step = 1` as the
final trace event. -/
theorem C1_witness :
    (0 : ℕ) < 10 ∧ iterState envFinish "t" 0 = some ([], none) ∧
    envFinish.plan 0 = some ⟨"task_completed", ""⟩ ∧
    (∃ tr, runCoact envFinish "t" = (tr, Outcome.finished) ∧
      (∃ pre, tr = pre ++ [TraceEv.completed 1]) ∧ plannedCount tr = 1) :=
  ⟨by decide, rfl, rfl,
    C1_loop_bound_and_completed.2 envFinish "t" 0 [] none ⟨"task_completed", ""⟩
      (by decide) rfl rfl rfl⟩

set_option maxRecDepth 10000 in
/-- **C2 counterexample**: the injection step rewrites *every* user turn
whose content is a list, not only the most recent turn carrying an image:
on a history of two image-carrying user turns, the OCR listing is also
inserted into the earlier turn, refuting "…and nowhere else". -/
theorem C2_counterexample :
    inject_ocr_into_messages exMsgs "L"
      = [Message.user (Content.items
          [Item.image "a", Item.text ("\n" ++ "L" ++ "\n"), Item.text "t1"]),
         Message.user (Content.items
          [Item.image "b", Item.text ("\n" ++ "L" ++ "\n")])] ∧
    (inject_ocr_into_messages exMsgs "L").head?
      ≠ some (Message.user (Content.items [Item.image "a", Item.text "t1"])) := by
  decide

/-- **C2 (amended)**: in every user turn with list-shaped content, the
listing is inserted as a text segment immediately after the *last* image
segment of that turn (in particular immediately after the image of a turn
with exactly one image segment, regardless of surrounding text segments);
in such a turn without any image it is prepended to the turn's first text
segment; all other messages are unchanged — but this happens in every
user turn with list content, not only the most recent image-carrying
turn. -/
theorem C2_injection_placement :
    (∀ (ocr : String) (pre : List Item) (u : String) (post : List Item),
        countImages post = 0 →
        injectContent ocr (pre ++ Item.image u :: post)
          = pre ++ Item.image u :: Item.text ("\n" ++ ocr ++ "\n") :: post) ∧
    (∀ (ocr : String) (pre : List Item) (s : String) (rest : List Item),
        countImages (pre ++ Item.text s :: rest) = 0 →
        (∀ it ∈ pre, itemIsText it = false) →
        injectContent ocr (pre ++ Item.text s :: rest)
          = pre ++ Item.text (ocr ++ "\n\n" ++ s) :: rest) ∧
    (∀ (ocr : String) (messages : List Message),
        inject_ocr_into_messages messages ocr = messages.map (injectMsg ocr)) ∧
    (∀ (ocr : String) (m : Message), (∀ l, m ≠ Message.user (Content.items l)) →
        injectMsg ocr m = m) := by
  refine ⟨?_, ?_, ?_, ?_⟩
  · intro ocr pre u post hpost
    exact injectContent_after_last ocr pre u post hpost
  · intro ocr pre s rest hnoimg hnotext
    rw [injectContent_no_image ocr _ hnoimg]
    exact injectFallback_first_text ocr pre hnotext s rest
  · intro ocr messages
    rfl
  · intro ocr m h
    exact injectMsg_not_user_items ocr m h

/-- Witness for C2 (amended): a turn with one image between two text
segments receives the listing immediately after the image; an imageless
turn receives it prepended to its first text segment; a non-user message
is unchanged. -/
theorem C2_witness :
    countImages [Item.text "q"] = 0 ∧
    injectContent "L" ([Item.text "p"] ++ Item.image "u" :: [Item.text "q"])
      = [Item.text "p"] ++ Item.image "u" :: Item.text ("\n" ++ "L" ++ "\n") :: [Item.text "q"] ∧
    injectContent "L" ([Item.toolUse] ++ Item.text "s" :: [])
      = [Item.toolUse] ++ Item.text ("L" ++ "\n\n" ++ "s") :: [] ∧
    injectMsg "L" Message.otherMsg = Message.otherMsg := by
  refine ⟨by decide, C2_injection_placement.1 "L" [Item.text "p"] "u" [Item.text "q"] (by decide),
    ?_, C2_injection_placement.2.2.2 "L" Message.otherMsg (fun l h => by cases h)⟩
  exact C2_injection_placement.2.1 "L" [Item.toolUse] "s" [] (by decide)
    (by intro it hit; simp at hit; rw [hit]; rfl)

/-- **C3**: an ID that is not a key of the most recent grounding
computation fails cleanly: `get_ocr_bbox` answers `None`,
`click_ocr_text` returns the descriptive failure string without clicking
(and without raising); and `on_llm_start` wholly replaces the registry
with the OCR of the newest screenshot, so the new registry never depends
on the registry computed from an older screenshot. -/
theorem C3_stale_id_fails :
    ∀ (st : OcrResults) (ocrId : ℕ), st.length ≤ ocrId →
      get_ocr_bbox st ocrId = none ∧
      (∀ clickErr, click_ocr_text clickErr st ocrId
          = ClickOutcome.failMsg ("Error: OCR ID " ++ toString ocrId ++ " not found")) ∧
      (∀ (engine : String → Option (List Detection)) (stA stA2 : OcrResults)
          (msgs : List Message) (img : String),
          extract_latest_screenshot msgs = some img →
          (on_llm_start engine stA msgs).1 = perform_ocr engine img ∧
          (on_llm_start engine stA msgs).1 = (on_llm_start engine stA2 msgs).1) := by
  intro st ocrId hle
  have hb : get_ocr_bbox st ocrId = none := by
    unfold get_ocr_bbox
    rw [List.get?_len_le hle]
    rfl
  refine ⟨hb, ?_, ?_⟩
  · intro clickErr
    unfold click_ocr_text
    rw [hb]
  · intro engine stA stA2 msgs img hext
    unfold on_llm_start
    rw [hext]
    exact ⟨rfl, rfl⟩

set_option maxRecDepth 10000 in
/-- Witness for C3: after computing over screenshot B (one retained
detection), the stale ID 3 resolves to `None` and the click returns the
not-found string; and the replacement registry for a message list carrying
screenshot B is the OCR of B, whatever the previous registry was. -/
theorem C3_witness :
    ([("B0", ((0 : ℤ), (0 : ℤ), (10 : ℤ), (10 : ℤ)))] : OcrResults).length ≤ 3 ∧
    get_ocr_bbox [("B0", ((0 : ℤ), 0, 10, 10))] 3 = none ∧
    click_ocr_text (fun _ _ => false) [("B0", ((0 : ℤ), 0, 10, 10))] 3
      = ClickOutcome.failMsg ("Error: OCR ID " ++ toString 3 ++ " not found") ∧
    extract_latest_screenshot msgsB = some "imgB" ∧
    (on_llm_start engineScenario [("OLD", ((1 : ℤ), 1, 2, 2))] msgsB).1
      = perform_ocr engineScenario "imgB" ∧
    (on_llm_start engineScenario [("OLD", ((1 : ℤ), 1, 2, 2))] msgsB).1
      = (on_llm_start engineScenario [] msgsB).1 := by
  have hmain := C3_stale_id_fails [("B0", ((0 : ℤ), 0, 10, 10))] 3 (by decide)
  have hext : extract_latest_screenshot msgsB = some "imgB" := by decide
  have hinner := hmain.2.2 engineScenario [("OLD", ((1 : ℤ), 1, 2, 2))] [] msgsB "imgB" hext
  exact ⟨by decide, hmain.1, hmain.2.1 (fun _ _ => false), hext, hinner.1, hinner.2⟩

/-- **C4**: when exactly one of the registered observers fails to receive
(`send` raises), `broadcast_event` delivers to every other observer,
removes only the failing observer from the registry (it returns normally —
the per-observer exception is caught inside), and a fresh observer can
still register afterwards. -/
theorem C4_best_effort_broadcast :
    ∀ (clients : List ℕ) (sendOk : ℕ → Bool) (c fresh : ℕ),
      clients.Nodup → c ∈ clients → sendOk c = false →
      (∀ d ∈ clients, d ≠ c → sendOk d = true) →
      (∀ d ∈ clients, d ≠ c → d ∈ (broadcast_event sendOk clients).1) ∧
      c ∉ (broadcast_event sendOk clients).1 ∧
      (broadcast_event sendOk clients).1.length + 1 = clients.length ∧
      c ∉ (broadcast_event sendOk clients).2 ∧
      (∀ d ∈ clients, d ≠ c → d ∈ (broadcast_event sendOk clients).2) ∧
      fresh ∈ register (broadcast_event sendOk clients).2 fresh := by
  intro clients sendOk c fresh hnd hmem hc hothers
  have hdisc : clients.filter (fun d => !sendOk d) = [c] :=
    filter_not_sendOk_eq_single hnd hmem hc hothers
  have hreg : (broadcast_event sendOk clients).2
      = clients.filter (fun d => !([c].contains d)) := by
    unfold broadcast_event
    rw [hdisc]
  have hfreshmem : ∀ l : List ℕ, fresh ∈ register l fresh := by
    intro l
    unfold register
    by_cases hin : l.contains fresh
    · rw [if_pos hin]
      simpa [List.contains, List.elem_iff] using hin
    · rw [if_neg hin]
      simp
  refine ⟨?_, ?_, ?_, ?_, ?_, hfreshmem _⟩
  · intro d hd hdc
    exact List.mem_filter.mpr ⟨hd, hothers d hd hdc⟩
  · intro hcmem
    have := (List.mem_filter.mp hcmem).2
    rw [hc] at this
    cases this
  · have hpart := length_filter_add_length_filter_not clients sendOk
    rw [hdisc] at hpart
    simpa [broadcast_event] using hpart
  · rw [hreg]
    intro hcmem
    have := (List.mem_filter.mp hcmem).2
    simp [List.contains, List.elem_iff] at this
  · intro d hd hdc
    rw [hreg]
    refine List.mem_filter.mpr ⟨hd, ?_⟩
    simp [List.contains, List.elem_iff]
    omega

/-- Witness for C4: three observers 0, 1, 2 with observer 1 broken —
0 and 2 receive, only 1 is removed, and a fresh observer 7 registers. -/
theorem C4_witness :
    ([0, 1, 2] : List ℕ).Nodup ∧
    ((∀ d ∈ ([0, 1, 2] : List ℕ), d ≠ 1 → d ∈ (broadcast_event sendOkExcept1 [0, 1, 2]).1) ∧
      1 ∉ (broadcast_event sendOkExcept1 [0, 1, 2]).1 ∧
      (broadcast_event sendOkExcept1 [0, 1, 2]).1.length + 1 = ([0, 1, 2] : List ℕ).length ∧
      1 ∉ (broadcast_event sendOkExcept1 [0, 1, 2]).2 ∧
      (∀ d ∈ ([0, 1, 2] : List ℕ), d ≠ 1 → d ∈ (broadcast_event sendOkExcept1 [0, 1, 2]).2) ∧
      7 ∈ register (broadcast_event sendOkExcept1 [0, 1, 2]).2 7) :=
  ⟨by decide, C4_best_effort_broadcast [0, 1, 2] sendOkExcept1 1 7
    (by decide) (by decide) (by decide) (by decide)⟩

theorem checkOcrLoop_eq (threshold : ℚ) :
    ∀ dets : List Detection,
      checkOcrLoop threshold dets
        = ((dets.filter (fun d => threshold < d.score)).map (fun d => d.txt),
           (dets.filter (fun d => threshold < d.score)).map (fun d => computeBBox d.box)) := by
  intro dets
  induction dets with
  | nil => rfl
  | cons d rest ih =>
    by_cases hd : threshold < d.score
    · simp [checkOcrLoop, List.filter_cons, hd, ih]
    · simp [checkOcrLoop, List.filter_cons, hd, ih]

/-- **C5 counterexample**: a detection whose confidence score is exactly
the 0.9 threshold is *dropped*, because the filter is the strict
comparison `score > text_threshold` — refuting "a detection with score
exactly 0.9 is retained". -/
theorem C5_counterexample :
    dHalfway.score = textThreshold ∧
    check_ocr_result (some [dHalfway]) textThreshold = ([], []) := by
  decide

/-- **C5 (amended)**: the grounding computation retains exactly the
detections whose score is *strictly above* the 0.9 threshold (0.95 kept,
0.5 and exactly-0.9 dropped), and assigns the retained detections dense
integer IDs starting at 0 in detection order. -/
theorem C5_strict_threshold_dense_ids :
    ∀ dets : List Detection,
      (check_ocr_result (some dets) textThreshold).1
        = (dets.filter (fun d => textThreshold < d.score)).map (fun d => d.txt) ∧
      (check_ocr_result (some dets) textThreshold).2
        = (dets.filter (fun d => textThreshold < d.score)).map (fun d => computeBBox d.box) ∧
      (∀ (engine : String → Option (List Detection)) (img : String) (res : List Detection),
        engine img = some res → ∀ i : ℕ,
        (perform_ocr engine img).get? i
          = ((res.filter (fun d => textThreshold < d.score)).get? i).map
              (fun d => (d.txt, computeBBox d.box))) := by
  intro dets
  refine ⟨?_, ?_, ?_⟩
  · show (checkOcrLoop textThreshold dets).1 = _
    rw [checkOcrLoop_eq]
  · show (checkOcrLoop textThreshold dets).2 = _
    rw [checkOcrLoop_eq]
  · intro engine img res heng i
    unfold perform_ocr
    rw [heng]
    show ((checkOcrLoop textThreshold res).1.zip (checkOcrLoop textThreshold res).2).get? i = _
    rw [checkOcrLoop_eq]
    dsimp only
    rw [List.zip_map']
    rw [List.get?_map]

/-- Witness for C5 (amended): in the two-detection scenario (score 0.95
and 0.5), only `"OK"` is retained, its ID is 0, its box is
(10, 10, 50, 30), and ID 1 does not exist. -/
theorem C5_witness :
    (check_ocr_result (some [dOK, dCancel]) textThreshold).1 = ["OK"] ∧
    (check_ocr_result (some [dOK, dCancel]) textThreshold).2 = [((10 : ℤ), 10, 50, 30)] ∧
    engineScenario "shot" = some [dOK, dCancel] ∧
    (perform_ocr engineScenario "shot").get? 0 = some ("OK", ((10 : ℤ), 10, 50, 30)) ∧
    (perform_ocr engineScenario "shot").get? 1 = none := by
  refine ⟨((C5_strict_threshold_dense_ids [dOK, dCancel]).1).trans (by decide),
    ((C5_strict_threshold_dense_ids [dOK, dCancel]).2.1).trans (by decide), rfl, ?_, ?_⟩
  · exact ((C5_strict_threshold_dense_ids [dOK, dCancel]).2.2 engineScenario "shot"
      [dOK, dCancel] rfl 0).trans (by decide)
  · exact ((C5_strict_threshold_dense_ids [dOK, dCancel]).2.2 engineScenario "shot"
      [dOK, dCancel] rfl 1).trans (by decide)

/-- **C6 counterexample**: for a polygon with fractional vertices (1/2,
1/2) and (5/2, 5/2) the box is (0, 0, 2, 2): `int()` truncation makes
`x1 = 0` differ from the true minimum 1/2, and the vertex coordinate 5/2
lies *outside* the box (`¬(5/2 ≤ 2)`), refuting minimality/enclosure as
claimed. -/
theorem C6_counterexample :
    boxFrac ≠ [] ∧ computeBBox boxFrac = (0, 0, 2, 2) ∧
    (mkRat 5 2, mkRat 5 2) ∈ boxFrac ∧ ¬((mkRat 5 2 : ℚ) ≤ ((2 : ℤ) : ℚ)) := by
  decide

/-- **C6 (amended)**: for every nonempty polygon the computed box
satisfies `x1 ≤ x2` and `y1 ≤ y2`, and its sides are the toward-zero
truncations of the exact minima/maxima of the vertex coordinates; for a
polygon whose vertices have integer coordinates the truncation is exact,
so the sides are the true minima/maxima and every vertex lies inside the
returned box. -/
theorem C6_bbox_bounds :
    ∀ (box : List (ℚ × ℚ)) (x1 y1 x2 y2 : ℤ), box ≠ [] →
      computeBBox box = (x1, y1, x2, y2) →
      x1 ≤ x2 ∧ y1 ≤ y2 ∧
      x1 = pyInt (minList (box.map Prod.fst)) ∧
      y1 = pyInt (minList (box.map Prod.snd)) ∧
      x2 = pyInt (maxList (box.map Prod.fst)) ∧
      y2 = pyInt (maxList (box.map Prod.snd)) ∧
      ((∀ p ∈ box, ∃ a b : ℤ, p = ((a : ℚ), (b : ℚ))) →
        ((x1 : ℚ) = minList (box.map Prod.fst) ∧ (y1 : ℚ) = minList (box.map Prod.snd) ∧
         (x2 : ℚ) = maxList (box.map Prod.fst) ∧ (y2 : ℚ) = maxList (box.map Prod.snd)) ∧
        ∀ p ∈ box, (x1 : ℚ) ≤ p.1 ∧ p.1 ≤ (x2 : ℚ) ∧ (y1 : ℚ) ≤ p.2 ∧ p.2 ≤ (y2 : ℚ)) := by
  intro box x1 y1 x2 y2 hne hbb
  simp only [computeBBox, Prod.mk.injEq] at hbb
  obtain ⟨hx1, hy1, hx2, hy2⟩ := hbb
  have hxs : box.map Prod.fst ≠ [] := by
    intro hcon
    exact hne (List.map_eq_nil.mp hcon)
  have hys : box.map Prod.snd ≠ [] := by
    intro hcon
    exact hne (List.map_eq_nil.mp hcon)
  have hminmax_x : minList (box.map Prod.fst) ≤ maxList (box.map Prod.fst) := by
    obtain ⟨w, hw⟩ := List.exists_mem_of_ne_nil _ hxs
    exact le_trans (minList_le hw) (le_maxList hw)
  have hminmax_y : minList (box.map Prod.snd) ≤ maxList (box.map Prod.snd) := by
    obtain ⟨w, hw⟩ := List.exists_mem_of_ne_nil _ hys
    exact le_trans (minList_le hw) (le_maxList hw)
  refine ⟨?_, ?_, hx1.symm, hy1.symm, hx2.symm, hy2.symm, ?_⟩
  · rw [← hx1, ← hx2]
    exact pyInt_mono hminmax_x
  · rw [← hy1, ← hy2]
    exact pyInt_mono hminmax_y
  · intro hint
    have hxint : ∀ x ∈ box.map Prod.fst, ∃ a : ℤ, x = (a : ℚ) := by
      intro x hx
      obtain ⟨p, hp, hpx⟩ := List.mem_map.mp hx
      obtain ⟨a, b, hab⟩ := hint p hp
      exact ⟨a, by rw [← hpx, hab]⟩
    have hyint : ∀ y ∈ box.map Prod.snd, ∃ b : ℤ, y = (b : ℚ) := by
      intro y hy
      obtain ⟨p, hp, hpy⟩ := List.mem_map.mp hy
      obtain ⟨a, b, hab⟩ := hint p hp
      exact ⟨b, by rw [← hpy, hab]⟩
    obtain ⟨a1, ha1⟩ := hxint _ (minList_mem hxs)
    obtain ⟨a2, ha2⟩ := hxint _ (maxList_mem hxs)
    obtain ⟨b1, hb1⟩ := hyint _ (minList_mem hys)
    obtain ⟨b2, hb2⟩ := hyint _ (maxList_mem hys)
    have hex1 : (x1 : ℚ) = minList (box.map Prod.fst) := by
      rw [← hx1, ha1, pyInt_intCast]
    have hex2 : (x2 : ℚ) = maxList (box.map Prod.fst) := by
      rw [← hx2, ha2, pyInt_intCast]
    have hey1 : (y1 : ℚ) = minList (box.map Prod.snd) := by
      rw [← hy1, hb1, pyInt_intCast]
    have hey2 : (y2 : ℚ) = maxList (box.map Prod.snd) := by
      rw [← hy2, hb2, pyInt_intCast]
    refine ⟨⟨hex1, hey1, hex2, hey2⟩, ?_⟩
    intro p hp
    have hp1 : p.1 ∈ box.map Prod.fst := List.mem_map_of_mem Prod.fst hp
    have hp2 : p.2 ∈ box.map Prod.snd := List.mem_map_of_mem Prod.snd hp
    exact ⟨hex1 ▸ minList_le hp1, hex2 ▸ le_maxList hp1,
      hey1 ▸ minList_le hp2, hey2 ▸ le_maxList hp2⟩

/-- Witness for C6 (amended): the rectangle (10,10)-(50,30), whose
vertices are integral, yields the box (10, 10, 50, 30) with ordered sides
and all four vertices inside. -/
theorem C6_witness :
    dOK.box ≠ [] ∧ computeBBox dOK.box = (10, 10, 50, 30) ∧
    (10 : ℤ) ≤ 50 ∧ (10 : ℤ) ≤ 30 ∧
    ∀ p ∈ dOK.box, ((10 : ℤ) : ℚ) ≤ p.1 ∧ p.1 ≤ ((50 : ℤ) : ℚ) ∧
      ((10 : ℤ) : ℚ) ≤ p.2 ∧ p.2 ≤ ((30 : ℤ) : ℚ) := by
  have hne : dOK.box ≠ [] := by decide
  have hbb : computeBBox dOK.box = (10, 10, 50, 30) := by decide
  have h := C6_bbox_bounds dOK.box 10 10 50 30 hne hbb
  have hint : ∀ p ∈ dOK.box, ∃ a b : ℤ, p = ((a : ℚ), (b : ℚ)) := by
    intro p hp
    simp only [dOK, List.mem_cons, List.mem_singleton] at hp
    rcases hp with h1 | h1 | h1 | h1 | h1
    · exact ⟨10, 10, by rw [h1]; norm_num⟩
    · exact ⟨50, 10, by rw [h1]; norm_num⟩
    · exact ⟨50, 30, by rw [h1]; norm_num⟩
    · exact ⟨10, 30, by rw [h1]; norm_num⟩
    · cases h1
  exact ⟨hne, hbb, h.1, h.2.1, (h.2.2.2.2.2.2 hint).2⟩

/-- **C7 counterexample**: the extraction only considers turns with role
`assistant`: on a history whose only (and last) turn is a marker-free
user turn, the source returns the sentinel instead of that turn's content,
refuting "the first turn, walking the history from the end, whose content
contains no tool markers". -/
theorem C7_counterexample :
    has_function_calls (Content.str "hi") = false ∧
    contentTruthy (Content.str "hi") = true ∧
    extract_sub_agent_final_message [Message.user (Content.str "hi")]
      = Content.str sentinelMsg ∧
    Content.str sentinelMsg ≠ Content.str "hi" := by
  decide

/-- **C7 (amended)**: the summarizing step returns the content of the
last *assistant* turn whose content is non-empty and free of
tool-invocation markers; the fixed "no explicit completion message found"
sentinel if no such turn exists. -/
theorem C7_last_assistant_message :
    ∀ history : List Message,
      extract_sub_agent_final_message history = specExtractFinal history := by
  intro history
  exact extractRev_eq_find history.reverse

set_option maxRecDepth 10000 in
/-- **C8 counterexample**: a run in which every awaited call succeeds
except the *final* screenshot after the step-1 delegate completes; that
capture is not guarded by `try`/`except`, so the run aborts — refuting
"the run is never aborted by a screenshot capture failure". -/
theorem C8_counterexample :
    envFinalFail.obsShot 0 = some "s" ∧
    envFinalFail.plan 0 = some ⟨"delegate_to_programmer", "sub"⟩ ∧
    envFinalFail.finalShot 0 = none ∧
    (runCoact envFinalFail "t").2 = Outcome.errored := by
  decide

/-- **C8 (amended)**: a failure of the *observation* screenshot at the
top of an iteration is caught: the loop appends a text-only user turn and
still consults the planner (every iteration records exactly one planning
consultation, whatever the observation outcome); but the *final*
screenshot awaited after a delegate completes is not guarded, and its
failure aborts the run. -/
theorem C8_screenshot_failure_semantics :
    (∀ (env : RunEnv) (task : String) (i : ℕ) (hist : List Message) (cur : Option String),
        env.obsShot i = none →
        observe env task i hist cur
          = (hist ++ [Message.user (Content.str obsPrompt)], cur, [TraceEv.obsFailed (i + 1)])) ∧
    (∀ (env : RunEnv) (task : String) (i : ℕ) (hist : List Message) (cur : Option String),
        plannedCount (runStep env task i hist cur).trace = 1) ∧
    (∀ (env : RunEnv) (task : String) (i : ℕ) (hist : List Message) (cur : Option String)
        (s : String) (d : Delegation),
        env.obsShot i = some s → env.plan i = some d →
        d.name = "delegate_to_programmer" → env.finalShot i = none →
        ∃ tr, runStep env task i hist cur = StepRes.fail tr) := by
  refine ⟨?_, ?_, ?_⟩
  · intro env task i hist cur hobs
    exact observe_none task hist cur hobs
  · intro env task i hist cur
    exact plannedCount_runStep env task i hist cur
  · intro env task i hist cur s d hobs hplan hname hfin
    refine ⟨[TraceEv.obsTaken (i + 1), TraceEv.planned (i + 1), TraceEv.agentState,
      TraceEv.delegated (i + 1) "Programmer"], ?_⟩
    unfold runStep
    rw [observe_some task hist cur hobs, hplan]
    simp [hname, hfin]

/-- Witness for C8 (amended): with an always-failing observation
screenshot the iteration still appends a text-only turn and plans; with a
failing final screenshot after a recognized delegation the iteration
aborts. -/
theorem C8_witness :
    envObsFail.obsShot 0 = none ∧
    observe envObsFail "t" 0 [] none
      = ([] ++ [Message.user (Content.str obsPrompt)], none, [TraceEv.obsFailed 1]) ∧
    plannedCount (runStep envObsFail "t" 0 [] none).trace = 1 ∧
    envFinalFail.obsShot 0 = some "s" ∧
    envFinalFail.plan 0 = some ⟨"delegate_to_programmer", "sub"⟩ ∧
    envFinalFail.finalShot 0 = none ∧
    (∃ tr, runStep envFinalFail "t" 0 [] none = StepRes.fail tr) :=
  ⟨rfl,
    C8_screenshot_failure_semantics.1 envObsFail "t" 0 [] none rfl,
    C8_screenshot_failure_semantics.2.1 envObsFail "t" 0 [] none,
    rfl, rfl, rfl,
    C8_screenshot_failure_semantics.2.2 envFinalFail "t" 0 [] none "s"
      ⟨"delegate_to_programmer", "sub"⟩ rfl rfl rfl rfl⟩

/-- **C9**: a proxied scroll with nonzero vertical magnitude issues
`max(1, |scroll_y| // 100)` discrete clicks, downward for positive and
upward for negative `scroll_y`; with `scroll_y = 0` the raw coordinate
scroll is forwarded. -/
theorem C9_scroll_normalization :
    ∀ x y scroll_x scroll_y : ℤ,
      (0 < scroll_y →
        proxy_scroll x y scroll_x scroll_y = ScrollAction.down (max 1 ((|scroll_y|).fdiv 100))) ∧
      (scroll_y < 0 →
        proxy_scroll x y scroll_x scroll_y = ScrollAction.up (max 1 ((|scroll_y|).fdiv 100))) ∧
      (scroll_y = 0 → proxy_scroll x y scroll_x scroll_y = ScrollAction.raw x y) := by
  intro x y sx sy
  refine ⟨?_, ?_, ?_⟩
  · intro h
    unfold proxy_scroll
    rw [if_pos h, abs_of_pos h]
  · intro h
    unfold proxy_scroll
    rw [if_neg (by omega), if_pos h]
  · intro h
    unfold proxy_scroll
    rw [if_neg (by omega), if_neg (by omega)]

/-- Witness for C9: 250 scrolls down in 2 clicks, −350 scrolls up in 3
clicks, 0 forwards the raw scroll. -/
theorem C9_witness :
    ((0 : ℤ) < 250 ∧ proxy_scroll 0 0 0 250 = ScrollAction.down 2) ∧
    ((-350 : ℤ) < 0 ∧ proxy_scroll 5 6 0 (-350) = ScrollAction.up 3) ∧
    proxy_scroll 7 8 9 0 = ScrollAction.raw 7 8 :=
  ⟨⟨by decide, ((C9_scroll_normalization 0 0 0 250).1 (by decide)).trans (by decide)⟩,
   ⟨by decide, ((C9_scroll_normalization 5 6 0 (-350)).2.1 (by decide)).trans (by decide)⟩,
   (C9_scroll_normalization 7 8 9 0).2.2 rfl⟩

/-- **C10**: when the history holds no image (no `image_url` user content
item, no `input_image` computer call output), `on_llm_start` returns the
history unchanged and keeps the stored OCR registry intact, so IDs from an
earlier screenshot remain resolvable through `get_ocr_bbox` and
`get_ocr_content`. -/
theorem C10_no_image_frame :
    ∀ (engine : String → Option (List Detection)) (st : OcrResults) (messages : List Message),
      (∀ m ∈ messages, msgImageFree m = true) →
      extract_latest_screenshot messages = none ∧
      on_llm_start engine st messages = (st, messages) ∧
      (∀ ocrId : ℕ, get_ocr_bbox (on_llm_start engine st messages).1 ocrId
          = get_ocr_bbox st ocrId) ∧
      (∀ ocrId : ℕ, get_ocr_content (on_llm_start engine st messages).1 ocrId
          = get_ocr_content st ocrId) := by
  intro engine st messages hfree
  have hrev : ∀ m ∈ messages.reverse, msgImageFree m = true :=
    fun m hm => hfree m (List.mem_reverse.mp hm)
  have hext : extract_latest_screenshot messages = none :=
    scanMsgsRev_none messages.reverse hrev
  have hon : on_llm_start engine st messages = (st, messages) := by
    unfold on_llm_start
    rw [hext]
  exact ⟨hext, hon, fun ocrId => by rw [hon], fun ocrId => by rw [hon]⟩

/-- Witness for C10: a text-only history leaves a one-entry registry
untouched and its ID 0 still resolvable. -/
theorem C10_witness :
    (∀ m ∈ msgsNoImage, msgImageFree m = true) ∧
    extract_latest_screenshot msgsNoImage = none ∧
    on_llm_start engineScenario [("OK", ((10 : ℤ), 10, 50, 30))] msgsNoImage
      = ([("OK", ((10 : ℤ), 10, 50, 30))], msgsNoImage) ∧
    get_ocr_bbox (on_llm_start engineScenario
        [("OK", ((10 : ℤ), 10, 50, 30))] msgsNoImage).1 0
      = get_ocr_bbox [("OK", ((10 : ℤ), 10, 50, 30))] 0 := by
  have h := C10_no_image_frame engineScenario [("OK", ((10 : ℤ), 10, 50, 30))] msgsNoImage
    (by decide)
  exact ⟨by decide, h.1, h.2.1, h.2.2.1 0⟩
